import Mathlib

/-!
# gogen: substitution pipeline

A shallow embedding of `walker.go` and `main.go` of `mammothbane/gogen`.

* The Go syntax tree (`go/ast`) is an inductive type.  `*ast.Ident`, `*ast.TypeSpec`,
  `*ast.ValueSpec` and `*ast.GenDecl` are the node kinds the three visitors or the properties
  below distinguish; every other node kind is `Node.other`, whose `tag` stands for the kind
  and all of its fields that are not nodes, and whose `children` are the child nodes in the
  order in which `ast.Walk` walks them.  Comment groups hold no identifier and no spec and the
  three visitors return themselves on them, so they are left out.
* `ast.Walk(v, n)` calls `v.Visit(n)`, and, unless that returns nil, walks the children of `n`
  in order.  Each of the three visitors is embedded as its `Visit` fused with `ast.Walk`:
  in-place mutation becomes a returned tree, the visitor's field `genericType` becomes a
  threaded state.
* The type checker (`loader.PackageInfo.TypeOf`) is an oracle from an expression to its type,
  nil (`none`) when it has none; a `types.Type` is compared by identity and stands as a number.
  The table is keyed by the expression as the checker saw it: Pass A looks the declared type of
  a type spec up when it visits the spec, before it walks into it, and Pass B runs on a file
  after Pass A is through with it.
* `main` is a function of the parsed flags, an environment (the working directory, the clock,
  the loader, the formatter) and a file system, to an outcome and a file system.  The file
  system is a list of entries by path; its operations fail only for the reasons stated with
  each of them.  A call of `handle` with an error, or a run-time error, unwinds through the
  deferred functions: the scratch directory is removed once it has been created, and the
  process exits with code 1.  Logging, and with it the flags `-q` and `-v`, is left out.
-/

namespace Gogen

/-! ## Data model -/

/-- Identity of a `types.Type` value. -/
abbrev Ty := Nat

/-- The Go map `map[string]string` built from the `Key=Value` arguments. -/
abbrev Bindings := String → Option String

/-- The node `*ast.Ident`: its position and its name. -/
structure Ident where
  namePos : Nat
  name : String
deriving DecidableEq, Repr

/-- Syntax tree nodes. -/
inductive Node where
  | ident (id : Ident)
  | typeSpec (name : Ident) (type : Node)
  | valueSpec (names : List Ident) (type : Option Node) (values : List Node)
  | genDecl (tok : Nat) (specs : List Node)
  | other (tag : Nat) (children : List Node)
deriving Repr

/-- The node `*ast.File`: `ast.Walk` walks `Name` and then `Decls`.  The field `filename` is
the base name the file set gives for the position of the file. -/
structure File where
  filename : String
  name : Ident
  decls : List Node
deriving Repr

/-- The part of `loader.PackageInfo` the program uses: the type table and the files. -/
structure PackageInfo where
  types : Node → Option Ty
  files : List File

/-- The method `TypeOf` of the package information, on an expression that may be nil. -/
def PackageInfo.TypeOf (p : PackageInfo) : Option Node → Option Ty
  | none => none
  | some e => p.types e

/-- The struct `walker`.  The field `genericType` is the value the pointer points to:
`main` builds this struct only after it has checked that the pointer is not nil. -/
structure walker where
  mp : Bindings
  pkgInfo : PackageInfo
  genericType : Option Ty

/-! ## nameWalker (Pass B) -/

/-- The body of `nameWalker.Visit` on an identifier node. -/
def nameWalker.Visit (mp : Bindings) (n : Ident) : Ident :=
  match mp n.name with
  | some newName => { n with name := newName }
  | none => n

mutual
/-- The call `ast.Walk((*nameWalker)(&wlkr), node)`. -/
def nameWalker.Walk (mp : Bindings) : Node → Node
  | .ident id => .ident (nameWalker.Visit mp id)
  | .typeSpec name ty => .typeSpec (nameWalker.Visit mp name) (nameWalker.Walk mp ty)
  | .valueSpec names ty values =>
      .valueSpec (names.map (nameWalker.Visit mp)) (nameWalker.WalkOpt mp ty)
        (nameWalker.WalkList mp values)
  | .genDecl tok specs => .genDecl tok (nameWalker.WalkList mp specs)
  | .other tag cs => .other tag (nameWalker.WalkList mp cs)
/-- Walk of a child that may be nil. -/
def nameWalker.WalkOpt (mp : Bindings) : Option Node → Option Node
  | none => none
  | some n => some (nameWalker.Walk mp n)
/-- Walk of a list of children, in order. -/
def nameWalker.WalkList (mp : Bindings) : List Node → List Node
  | [] => []
  | n :: ns => nameWalker.Walk mp n :: nameWalker.WalkList mp ns
end

/-- The call `ast.Walk((*nameWalker)(&wlkr), fileAst)`. -/
def nameWalker.WalkFile (mp : Bindings) (f : File) : File :=
  { f with name := nameWalker.Visit mp f.name, decls := nameWalker.WalkList mp f.decls }

/-! ## typeWalker (Pass A) -/

/-- The body of `typeWalker.Visit` on a type spec `n`: the identifier `n.Name` afterwards. -/
def typeWalker.Visit (w : walker) (name : Ident) (type : Node) : Ident :=
  if (w.mp name.name).isSome && w.pkgInfo.TypeOf (some type) == w.genericType then
    { name with name := "_" }
  else name

mutual
/-- The call `ast.Walk((*typeWalker)(&wlkr), node)`. -/
def typeWalker.Walk (w : walker) : Node → Node
  | .ident id => .ident id
  | .typeSpec name ty => .typeSpec (typeWalker.Visit w name ty) (typeWalker.Walk w ty)
  | .valueSpec names ty values =>
      .valueSpec names (typeWalker.WalkOpt w ty) (typeWalker.WalkList w values)
  | .genDecl tok specs => .genDecl tok (typeWalker.WalkList w specs)
  | .other tag cs => .other tag (typeWalker.WalkList w cs)
/-- Walk of a child that may be nil. -/
def typeWalker.WalkOpt (w : walker) : Option Node → Option Node
  | none => none
  | some n => some (typeWalker.Walk w n)
/-- Walk of a list of children, in order. -/
def typeWalker.WalkList (w : walker) : List Node → List Node
  | [] => []
  | n :: ns => typeWalker.Walk w n :: typeWalker.WalkList w ns
end

/-- The call `ast.Walk((*typeWalker)(&wlkr), fileAst)`. -/
def typeWalker.WalkFile (w : walker) (f : File) : File :=
  { f with decls := typeWalker.WalkList w f.decls }

/-- The tree part of one round of the generation loop of `main`: Pass A, Pass B, then
`fileAst.Name.Name = newPkgName`. -/
def rewriteFile (w : walker) (newPkgName : String) (f : File) : File :=
  let f1 := typeWalker.WalkFile w f
  let f2 := nameWalker.WalkFile w.mp f1
  { f2 with name := { f2.name with name := newPkgName } }

/-! ## Observations of a tree -/

mutual
/-- Names of all identifier nodes of a tree, in source order. -/
def Node.names : Node → List String
  | .ident id => [id.name]
  | .typeSpec name ty => name.name :: Node.names ty
  | .valueSpec ns ty values => ns.map Ident.name ++ (Node.namesOpt ty ++ Node.namesList values)
  | .genDecl _ specs => Node.namesList specs
  | .other _ cs => Node.namesList cs
/-- Names of the identifiers of a child that may be nil. -/
def Node.namesOpt : Option Node → List String
  | none => []
  | some n => Node.names n
/-- Names of the identifiers of a list of trees. -/
def Node.namesList : List Node → List String
  | [] => []
  | n :: ns => Node.names n ++ Node.namesList ns
end

mutual
/-- The shape of a tree: the tree with the name of every identifier node blanked. -/
def Node.shape : Node → Node
  | .ident id => .ident { id with name := "" }
  | .typeSpec name ty => .typeSpec { name with name := "" } (Node.shape ty)
  | .valueSpec ns ty values =>
      .valueSpec (ns.map fun i => { i with name := "" }) (Node.shapeOpt ty)
        (Node.shapeList values)
  | .genDecl tok specs => .genDecl tok (Node.shapeList specs)
  | .other tag cs => .other tag (Node.shapeList cs)
/-- Shape of a child that may be nil. -/
def Node.shapeOpt : Option Node → Option Node
  | none => none
  | some n => some (Node.shape n)
/-- Shape of a list of trees. -/
def Node.shapeList : List Node → List Node
  | [] => []
  | n :: ns => Node.shape n :: Node.shapeList ns
end

/-- Names of all identifier nodes of a file: the package name, then the declarations. -/
def File.names (f : File) : List String :=
  f.name.name :: Node.namesList f.decls

/-- The shape of a file. -/
def File.shape (f : File) : File :=
  { f with name := { f.name with name := "" }, decls := Node.shapeList f.decls }

/-- The syntactic role of an identifier occurrence, as far as Pass A is concerned: the name of
a type spec, with the type the checker gives for the declared type, or anything else. -/
inductive Role where
  | typeName (declared : Option Ty)
  | plain
deriving DecidableEq, Repr

mutual
/-- All identifier occurrences of a tree in source order, each with its role. -/
def Node.occs (p : PackageInfo) : Node → List (Role × String)
  | .ident id => [(.plain, id.name)]
  | .typeSpec name ty => (.typeName (p.TypeOf (some ty)), name.name) :: Node.occs p ty
  | .valueSpec ns ty values =>
      ns.map (fun i => (Role.plain, i.name)) ++ (Node.occsOpt p ty ++ Node.occsList p values)
  | .genDecl _ specs => Node.occsList p specs
  | .other _ cs => Node.occsList p cs
/-- Occurrences in a child that may be nil. -/
def Node.occsOpt (p : PackageInfo) : Option Node → List (Role × String)
  | none => []
  | some n => Node.occs p n
/-- Occurrences in a list of trees. -/
def Node.occsList (p : PackageInfo) : List Node → List (Role × String)
  | [] => []
  | n :: ns => Node.occs p n ++ Node.occsList p ns
end

/-- Identifier occurrences of a file; the package name is a plain occurrence. -/
def File.occs (p : PackageInfo) (f : File) : List (Role × String) :=
  (.plain, f.name.name) :: Node.occsList p f.decls

mutual
/-- Every type spec of a tree, at any depth, in source order: its name and the type the
checker gives for its declared type. -/
def Node.typeDecls (p : PackageInfo) : Node → List (String × Option Ty)
  | .ident _ => []
  | .typeSpec name ty => (name.name, p.TypeOf (some ty)) :: Node.typeDecls p ty
  | .valueSpec _ ty values => Node.typeDeclsOpt p ty ++ Node.typeDeclsList p values
  | .genDecl _ specs => Node.typeDeclsList p specs
  | .other _ cs => Node.typeDeclsList p cs
/-- Type specs in a child that may be nil. -/
def Node.typeDeclsOpt (p : PackageInfo) : Option Node → List (String × Option Ty)
  | none => []
  | some n => Node.typeDecls p n
/-- Type specs in a list of trees. -/
def Node.typeDeclsList (p : PackageInfo) : List Node → List (String × Option Ty)
  | [] => []
  | n :: ns => Node.typeDecls p n ++ Node.typeDeclsList p ns
end

mutual
/-- Names of every type spec of a tree, at any depth, in source order. -/
def Node.typeDeclNames : Node → List String
  | .ident _ => []
  | .typeSpec name ty => name.name :: Node.typeDeclNames ty
  | .valueSpec _ ty values => Node.typeDeclNamesOpt ty ++ Node.typeDeclNamesList values
  | .genDecl _ specs => Node.typeDeclNamesList specs
  | .other _ cs => Node.typeDeclNamesList cs
/-- Names of the type specs in a child that may be nil. -/
def Node.typeDeclNamesOpt : Option Node → List String
  | none => []
  | some n => Node.typeDeclNames n
/-- Names of the type specs in a list of trees. -/
def Node.typeDeclNamesList : List Node → List String
  | [] => []
  | n :: ns => Node.typeDeclNames n ++ Node.typeDeclNamesList ns
end

/-- The type specs directly in a declaration of a file: name and declared type. -/
def Node.specsOfDecl : Node → List (Ident × Node)
  | .genDecl _ specs =>
      specs.filterMap fun s =>
        match s with
        | .typeSpec name ty => some (name, ty)
        | _ => none
  | _ => []

/-- The top-level type declarations of a file, in source order. -/
def File.topTypeDecls (f : File) : List (Ident × Node) :=
  f.decls.flatMap Node.specsOfDecl

/-- What Pass A is specified to do to a declared name: the discard marker when the name is a
key of the binding map and the checker's type of the declared type is the placeholder type. -/
def erasedName (mp : Bindings) (P : Option Ty) (name : String) (declared : Option Ty) : String :=
  if (mp name).isSome ∧ declared = P then "_" else name

/-- What Pass B is specified to do to a name: the value of the binding map when the name is a
key, the name itself otherwise. -/
def renamed (mp : Bindings) (name : String) : String :=
  (mp name).getD name

/-- What Pass A is specified to do to an identifier occurrence. -/
def erasedOcc (mp : Bindings) (P : Option Ty) : Role × String → String
  | (.typeName declared, name) => erasedName mp P name declared
  | (.plain, name) => name

/-! ## genericWalker and the scan of the marker package -/

mutual
/-- The call `ast.Walk(&gWlkr, node)`, threading the field `genericType` of the visitor: nil
pointer is `none`, a pointer to the interface value `t` is `some t`.  On a value spec `Visit`
stores `TypeOf(n.Type)` and returns nil, so the children of the value spec are not walked;
the walk of the rest of the tree goes on. -/
def genericWalker.Walk (p : PackageInfo) : Option (Option Ty) → Node → Option (Option Ty)
  | g, .ident _ => g
  | g, .typeSpec _ ty => genericWalker.Walk p g ty
  | _, .valueSpec _ ty _ => some (p.TypeOf ty)
  | g, .genDecl _ specs => genericWalker.WalkList p g specs
  | g, .other _ cs => genericWalker.WalkList p g cs
/-- Walk of a list of children, in order. -/
def genericWalker.WalkList (p : PackageInfo) :
    Option (Option Ty) → List Node → Option (Option Ty)
  | g, [] => g
  | g, n :: ns => genericWalker.WalkList p (genericWalker.Walk p g n) ns
end

/-- The call `ast.Walk(&gWlkr, fileAst)`. -/
def genericWalker.WalkFile (p : PackageInfo) (g : Option (Option Ty)) (f : File) :
    Option (Option Ty) :=
  genericWalker.WalkList p g f.decls

/-- The loop of `main` over `genericPkgInfo.Files`: walk a file, leave the loop as soon as
`gWlkr.genericType != nil`. -/
def scanGeneric (p : PackageInfo) : Option (Option Ty) → List File → Option (Option Ty)
  | g, [] => g
  | g, f :: fs =>
      let g1 := genericWalker.WalkFile p g f
      if g1.isSome then g1 else scanGeneric p g1 fs

mutual
/-- Whether the walk of `genericWalker` meets a value spec in a tree. -/
def Node.hasValueSpec : Node → Bool
  | .ident _ => false
  | .typeSpec _ ty => Node.hasValueSpec ty
  | .valueSpec _ _ _ => true
  | .genDecl _ specs => Node.hasValueSpecList specs
  | .other _ cs => Node.hasValueSpecList cs
/-- Whether the walk of `genericWalker` meets a value spec in a list of trees. -/
def Node.hasValueSpecList : List Node → Bool
  | [] => false
  | n :: ns => Node.hasValueSpec n || Node.hasValueSpecList ns
end

/-! ## File system -/

/-- An absolute path, as its components. -/
abbrev Path := List String

/-- A file system entry. -/
inductive Entry where
  | file (data : String)
  | dir
deriving DecidableEq, Repr

/-- A file system: the entries by path; the first entry of a path is the one in force. -/
abbrev FS := List (Path × Entry)

/-- Whether `p` is `d` or lies below `d`. -/
def under : Path → Path → Bool
  | [], _ => true
  | _ :: _, [] => false
  | a :: d, b :: p => a == b && under d p

/-- The entry at a path, if any. -/
def FS.stat : FS → Path → Option Entry
  | [], _ => none
  | (q, e) :: rest, p => if q = p then some e else FS.stat rest p

/-- The content of the regular file at a path, if there is one. -/
def FS.fileAt (fs : FS) (p : Path) : Option String :=
  match FS.stat fs p with
  | some (.file data) => some data
  | _ => none

/-- Whether a path is a directory; the root always is. -/
def FS.isDir (fs : FS) (p : Path) : Bool :=
  p == [] || FS.stat fs p == some .dir

/-- Creation of the directories `base/c1`, `base/c1/c2`, ... that are missing; stops at a
component that is a regular file. -/
def FS.mkdirFrom (fs : FS) (base : Path) : List String → FS
  | [] => fs
  | c :: cs =>
      match FS.stat fs (base ++ [c]) with
      | some .dir => FS.mkdirFrom fs (base ++ [c]) cs
      | some (.file _) => fs
      | none => FS.mkdirFrom ((base ++ [c], .dir) :: fs) (base ++ [c]) cs

/-- The call `os.MkdirAll(p, 0744)`; `main` drops its error. -/
def FS.MkdirAll (fs : FS) (p : Path) : FS :=
  FS.mkdirFrom fs [] p

/-- The call `ioutil.WriteFile(p, data, 0744)`: the parent must be a directory and `p` must
not be one. -/
def FS.WriteFile (fs : FS) (p : Path) (data : String) : Option FS :=
  if p = [] ∨ FS.isDir fs p.dropLast = false ∨ FS.stat fs p = some .dir then none
  else some ((p, .file data) :: fs.filter fun e => decide (e.1 ≠ p))

/-- The call `os.RemoveAll(p)`: removes `p` and all below it; no error when `p` is absent. -/
def FS.RemoveAll (fs : FS) (p : Path) : FS :=
  fs.filter fun e => !under p e.1

/-- The calls `os.Open(d)` and `f.Readdir(0)`: the names of the entries directly in `d`. -/
def FS.Readdir (fs : FS) (d : Path) : Option (List String) :=
  if FS.stat fs d = some .dir then
    some (fs.filterMap fun e =>
      if e.1 ≠ [] ∧ e.1.dropLast = d then e.1.getLast? else none).dedup
  else none

/-- The call `os.Rename(old, new)`: the new name is replaced when it is a regular file and
`old` is one too, and refused when it is a directory; what is below `old` moves with it. -/
def FS.Rename (fs : FS) (old new : Path) : Option FS :=
  match FS.stat fs old with
  | none => none
  | some e =>
      let blocked : Bool :=
        match e, FS.stat fs new with
        | _, none => false
        | .file _, some (.file _) => false
        | .dir, some (.file _) => true
        | _, some .dir => true
      if new = [] ∨ FS.isDir fs new.dropLast = false ∨ blocked
          ∨ (under old new ∧ old ≠ new) then none
      else if old = new then some fs
      else
        let moved := (fs.filter fun x => under old x.1).map fun x =>
          (new ++ x.1.drop old.length, x.2)
        some (moved ++ fs.filter fun x => !under old x.1 && !under new x.1)

/-- Whether none of the paths `base/c1`, `base/c1/c2`, ... is a regular file. -/
def FS.clearFrom (fs : FS) (base : Path) : List String → Bool
  | [] => true
  | c :: cs =>
      (match FS.stat fs (base ++ [c]) with
        | some (.file _) => false
        | _ => true) && FS.clearFrom fs (base ++ [c]) cs

/-! ## The program `main` -/

/-- The constant `genericsPackageName`. -/
def genericsPackageName : String := "github.com/mammothbane/gogen/generic"

/-- The result of `flag.Parse()`: the flags `-o`, `-q`, `-v`, `-no-gi`, `-h` and the
positional arguments `flag.Args()`. -/
structure Flags where
  outdir : String
  quiet : Bool
  verbose : Bool
  noGi : Bool
  help : Bool
  args : List String

/-- The loaded program: `program.Package(path)`. -/
structure Program where
  Package : String → PackageInfo

/-- What `main` gets from outside: `filepath.Abs`, `time.Now().Nanosecond()`, the loader on
the import path of the template (`conf.Load()`), `format.Node` followed by `format.Source`,
and the loader on the generated files (`genConf.Load()`). -/
structure Env where
  abs : String → Option Path
  nanosecond : Nat
  load : String → Option Program
  format : File → Option String
  check : String → List File → Bool

/-- The call of `handle` or the run-time error that ends a run with exit code 1. -/
inductive Failure where
  | abs
  | binding
  | load
  | resolution
  | format
  | write
  | typeCheck
  | readdir
  | rename
deriving DecidableEq, Repr

/-- How a run ends. -/
inductive Outcome where
  | usage
  | failed (f : Failure)
  | done
deriving DecidableEq, Repr

/-- The exit code of the process. -/
def Outcome.exitCode : Outcome → Nat
  | .usage => 2
  | .failed _ => 1
  | .done => 0

/-- The call `strings.SplitN(v, "=", 2)`. -/
def splitN2 (v : String) : List String :=
  match v.toList.span (fun c => c != '=') with
  | (k, []) => [String.mk k]
  | (k, _ :: r) => [String.mk k, String.mk r]

/-- The loop that fills `typeNames`; `split[1]` is out of range when there is no `=`. -/
def buildBindings : Bindings → List String → Option Bindings
  | m, [] => some m
  | m, v :: vs =>
      match splitN2 v with
      | [k, val] => buildBindings (fun x => if x = k then some val else m x) vs
      | _ => none

/-- The call `filepath.Base` on an absolute path. -/
def base (p : Path) : String :=
  p.getLast?.getD "/"

/-- The scratch directory `tdir`. -/
def scratchDir (env : Env) (absPkgPath : Path) : Path :=
  absPkgPath ++ ["gogen-" ++ toString env.nanosecond]

/-- The files of the template as the generation loop of `main` leaves them: the generated
module that `genConf.Load()` checks. -/
def generatedFiles (w : walker) (newPkgName : String) : List File :=
  w.pkgInfo.files.map (rewriteFile w newPkgName)

/-- The generation loop of `main`: rewrite each file, format it, write it into `tdir`.
Returns the file system, and the rewritten files unless a call of `handle` ended the loop. -/
def emitFiles (env : Env) (w : walker) (newPkgName : String) (tdir : Path) :
    FS → List File → FS × Except Failure (List File)
  | fs, [] => (fs, .ok [])
  | fs, f :: rest =>
      let g := rewriteFile w newPkgName f
      match env.format g with
      | none => (fs, .error .format)
      | some b =>
          match FS.WriteFile fs (tdir ++ [f.filename]) b with
          | none => (fs, .error .write)
          | some fs1 =>
              match emitFiles env w newPkgName tdir fs1 rest with
              | (fs2, .ok gs) => (fs2, .ok (g :: gs))
              | (fs2, .error e) => (fs2, .error e)

/-- The last loop of `main`: move every entry of `tdir` into the output directory. -/
def moveAll (tdir absPkgPath : Path) : FS → List String → FS × Except Failure Unit
  | fs, [] => (fs, .ok ())
  | fs, v :: vs =>
      match FS.Rename fs (tdir ++ [v]) (absPkgPath ++ [v]) with
      | none => (fs, .error .rename)
      | some fs1 => moveAll tdir absPkgPath fs1 vs

/-- The part of `main` between the registration of the clean-up and the end of `main`. -/
def generateAndPublish (env : Env) (flags : Flags) (w : walker) (newPkgName : String)
    (absPkgPath tdir : Path) (fs : FS) : FS × Except Failure Unit :=
  match emitFiles env w newPkgName tdir fs w.pkgInfo.files with
  | (fs1, .error e) => (fs1, .error e)
  | (fs1, .ok gs) =>
      if env.check newPkgName gs = false then (fs1, .error .typeCheck)
      else
        let fs2 := if flags.noGi then fs1
          else (FS.WriteFile fs1 (tdir ++ [".gitignore"]) "*\n").getD fs1
        match FS.Readdir fs2 tdir with
        | none => (fs2, .error .readdir)
        | some fi => moveAll tdir absPkgPath fs2 fi

/-- The program: the outcome of a run and the file system it leaves. -/
def main (env : Env) (flags : Flags) (fs : FS) : Outcome × FS :=
  if flags.help || decide (flags.args.length < 2) then (.usage, fs)
  else
    match env.abs flags.outdir with
    | none => (.failed .abs, fs)
    | some absPkgPath =>
        match buildBindings (fun _ => none) (flags.args.drop 1) with
        | none => (.failed .binding, fs)
        | some typeNames =>
            match env.load (flags.args.headD "") with
            | none => (.failed .load, fs)
            | some program =>
                let genericPkgInfo := program.Package genericsPackageName
                match scanGeneric genericPkgInfo none genericPkgInfo.files with
                | none => (.failed .resolution, fs)
                | some genericType =>
                    let pkgInfo := program.Package (flags.args.headD "")
                    let tdir := scratchDir env absPkgPath
                    let fs1 := FS.MkdirAll fs tdir
                    let wlkr : walker := ⟨typeNames, pkgInfo, genericType⟩
                    match generateAndPublish env flags wlkr (base absPkgPath) absPkgPath tdir
                        fs1 with
                    | (fs2, .error e) => (.failed e, FS.RemoveAll fs2 tdir)
                    | (fs2, .ok _) => (.done, FS.RemoveAll fs2 tdir)

/-! ## Example inputs -/

/-- The token of a type declaration (`token.TYPE`). -/
def tokType : Nat := 84

/-- The token of a variable declaration (`token.VAR`). -/
def tokVar : Nat := 85

/-- Tags of the node kinds used in the examples: function declaration, function type, field
list, field, block statement, declaration statement, basic literal. -/
def tagFuncDecl : Nat := 1
def tagFuncType : Nat := 2
def tagFieldList : Nat := 3
def tagField : Nat := 4
def tagBlockStmt : Nat := 5
def tagDeclStmt : Nat := 6
def tagBasicLit : Nat := 7

/-- The type table of the examples: the identifier `Generic` has the type 7, the identifier
`int` the type 1, the identifier `string` the type 2. -/
def exTypes : Node → Option Ty
  | .ident id =>
      if id.name = "Generic" then some 7
      else if id.name = "int" then some 1
      else if id.name = "string" then some 2
      else none
  | _ => none

/-- The file `package tmpl; type Box Generic; func NewBox() Box`. -/
def boxFile : File :=
  { filename := "box.go"
    name := ⟨0, "tmpl"⟩
    decls :=
      [ .genDecl tokType [.typeSpec ⟨1, "Box"⟩ (.ident ⟨2, "Generic"⟩)],
        .other tagFuncDecl
          [ .ident ⟨3, "NewBox"⟩,
            .other tagFuncType
              [ .other tagFieldList [],
                .other tagFieldList [.other tagField [.ident ⟨4, "Box"⟩]] ] ] ] }

/-- The file `package tmpl; func f() { type Box Generic }`. -/
def localBoxFile : File :=
  { filename := "local.go"
    name := ⟨0, "tmpl"⟩
    decls :=
      [ .other tagFuncDecl
          [ .ident ⟨1, "f"⟩,
            .other tagFuncType [.other tagFieldList []],
            .other tagBlockStmt
              [.other tagDeclStmt
                [.genDecl tokType [.typeSpec ⟨2, "Box"⟩ (.ident ⟨3, "Generic"⟩)]]] ] ] }

/-- The walker of the run with the binding `Box=IntBox` and the placeholder type 7. -/
def boxWalker : walker :=
  { mp := fun k => if k = "Box" then some "IntBox" else none
    pkgInfo := ⟨exTypes, [boxFile]⟩
    genericType := some 7 }

/-- The walker of the run with the bindings `Box=IntBox _=Box` and the placeholder type 7. -/
def leakWalker : walker :=
  { mp := fun k => if k = "Box" then some "IntBox" else if k = "_" then some "Box" else none
    pkgInfo := ⟨exTypes, [boxFile]⟩
    genericType := some 7 }

/-- The walker of the run with the binding `Box=Box` and the placeholder type 7. -/
def selfWalker : walker :=
  { mp := fun k => if k = "Box" then some "Box" else none
    pkgInfo := ⟨exTypes, [boxFile]⟩
    genericType := some 7 }

/-- The marker file `package generic; var _ Generic`, as in the repository. -/
def markerFile : File :=
  { filename := "generic.go"
    name := ⟨0, "generic"⟩
    decls := [.genDecl tokVar [.valueSpec [⟨1, "_"⟩] (some (.ident ⟨2, "Generic"⟩)) []]] }

/-- The marker file `package generic; var a int; var b string`. -/
def twoVarFile : File :=
  { filename := "generic.go"
    name := ⟨0, "generic"⟩
    decls :=
      [ .genDecl tokVar [.valueSpec [⟨1, "a"⟩] (some (.ident ⟨2, "int"⟩)) []],
        .genDecl tokVar [.valueSpec [⟨3, "b"⟩] (some (.ident ⟨4, "string"⟩)) []] ] }

/-- The marker file `package generic; var x = 1`. -/
def untypedFile : File :=
  { filename := "generic.go"
    name := ⟨0, "generic"⟩
    decls := [.genDecl tokVar [.valueSpec [⟨1, "x"⟩] none [.other tagBasicLit []]]] }

/-- The program with the given marker package and the template package of `boxFile`. -/
def exProgram (marker : File) : Program :=
  { Package := fun path =>
      if path = genericsPackageName then ⟨exTypes, [marker]⟩ else ⟨exTypes, [boxFile]⟩ }

/-- An environment: the working directory is `/work`, the clock gives 5 nanoseconds, the loader
gives `exProgram marker`, formatting succeeds, and the check of the generated files gives
`checks`. -/
def exEnv (marker : File) (checks : Bool) : Env :=
  { abs := fun d => some [if d = "" then "work" else d]
    nanosecond := 5
    load := fun _ => some (exProgram marker)
    format := fun _ => some "src"
    check := fun _ _ => checks }

/-- The invocation `gogen -o out tmpl Box=IntBox`. -/
def exFlags : Flags :=
  { outdir := "out", quiet := false, verbose := false, noGi := false, help := false
    args := ["tmpl", "Box=IntBox"] }

/-- The invocation `gogen -o out tmpl`. -/
def noBindingFlags : Flags :=
  { outdir := "out", quiet := false, verbose := false, noGi := false, help := false
    args := ["tmpl"] }

/-- The invocation `gogen tmpl Box=IntBox`. -/
def noOutdirFlags : Flags :=
  { outdir := "", quiet := false, verbose := false, noGi := false, help := false
    args := ["tmpl", "Box=IntBox"] }

/-- A file system with the output directory `/out` and the file `/out/old.go`. -/
def plainFS : FS :=
  [(["out"], .dir), (["out", "old.go"], .file "old")]

/-- A file system in which the scratch path `/out/gogen-5` is a directory with a file. -/
def collisionFS : FS :=
  [(["out"], .dir), (["out", "gogen-5"], .dir), (["out", "gogen-5", "keep"], .file "data")]

/-! ## A tree is its shape and its names -/

mutual
theorem length_names_shape :
    ∀ t : Node, (Node.names (Node.shape t)).length = (Node.names t).length
  | .ident _ => by simp [Node.shape, Node.names]
  | .typeSpec _ ty => by simp [Node.shape, Node.names, length_names_shape ty]
  | .valueSpec ns ty values => by
      simp [Node.shape, Node.names, length_names_shapeOpt ty, length_names_shapeList values]
  | .genDecl _ specs => by simp [Node.shape, Node.names, length_names_shapeList specs]
  | .other _ cs => by simp [Node.shape, Node.names, length_names_shapeList cs]
theorem length_names_shapeOpt :
    ∀ t : Option Node, (Node.namesOpt (Node.shapeOpt t)).length = (Node.namesOpt t).length
  | none => by simp [Node.shapeOpt, Node.namesOpt]
  | some n => by simp [Node.shapeOpt, Node.namesOpt, length_names_shape n]
theorem length_names_shapeList :
    ∀ ts : List Node, (Node.namesList (Node.shapeList ts)).length = (Node.namesList ts).length
  | [] => by simp [Node.shapeList, Node.namesList]
  | n :: ns => by
      simp [Node.shapeList, Node.namesList, length_names_shape n, length_names_shapeList ns]
end

theorem idents_eq_of_blank_names :
    ∀ a b : List Ident,
      (a.map fun i => ({ i with name := "" } : Ident)) = (b.map fun i => { i with name := "" }) →
      a.map Ident.name = b.map Ident.name → a = b
  | [], [], _, _ => rfl
  | [], _ :: _, h, _ => by simp at h
  | _ :: _, [], h, _ => by simp at h
  | i :: a, j :: b, hs, hn => by
      simp only [List.map_cons, List.cons.injEq, Ident.mk.injEq] at hs hn
      have ih := idents_eq_of_blank_names a b hs.2 hn.2
      cases i
      cases j
      simp_all

mutual
theorem eq_of_shape_names :
    ∀ a b : Node, Node.shape a = Node.shape b → Node.names a = Node.names b → a = b
  | .ident i, b, hs, hn => by
      cases b <;> simp [Node.shape] at hs
      rename_i j
      simp [Node.names] at hn
      cases i
      cases j
      simp_all
  | .typeSpec n1 t1, b, hs, hn => by
      cases b <;> simp [Node.shape] at hs
      rename_i n2 t2
      simp [Node.names] at hn
      have := eq_of_shape_names t1 t2 hs.2 hn.2
      cases n1
      cases n2
      simp_all
  | .valueSpec ns1 ty1 vs1, b, hs, hn => by
      cases b <;> simp [Node.shape] at hs
      rename_i ns2 ty2 vs2
      simp only [Node.names] at hn
      have hl : (ns1.map Ident.name).length = (ns2.map Ident.name).length := by
        have := congrArg List.length hs.1
        simpa using this
      obtain ⟨h1, h2⟩ := List.append_inj hn hl
      have hl2 : (Node.namesOpt ty1).length = (Node.namesOpt ty2).length := by
        rw [← length_names_shapeOpt ty1, ← length_names_shapeOpt ty2, hs.2.1]
      obtain ⟨h3, h4⟩ := List.append_inj h2 hl2
      have e1 := idents_eq_of_blank_names ns1 ns2 hs.1 h1
      have e2 := eq_of_shape_namesOpt ty1 ty2 hs.2.1 h3
      have e3 := eq_of_shape_namesList vs1 vs2 hs.2.2 h4
      rw [e1, e2, e3]
  | .genDecl _ s1, b, hs, hn => by
      cases b <;> simp [Node.shape] at hs
      rename_i tok2 s2
      simp only [Node.names] at hn
      rw [hs.1, eq_of_shape_namesList s1 s2 hs.2 hn]
  | .other _ s1, b, hs, hn => by
      cases b <;> simp [Node.shape] at hs
      rename_i tag2 s2
      simp only [Node.names] at hn
      rw [hs.1, eq_of_shape_namesList s1 s2 hs.2 hn]
theorem eq_of_shape_namesOpt :
    ∀ a b : Option Node,
      Node.shapeOpt a = Node.shapeOpt b → Node.namesOpt a = Node.namesOpt b → a = b
  | none, none, _, _ => rfl
  | none, some _, hs, _ => by simp [Node.shapeOpt] at hs
  | some _, none, hs, _ => by simp [Node.shapeOpt] at hs
  | some a, some b, hs, hn => by
      simp only [Node.shapeOpt, Option.some.injEq] at hs
      simp only [Node.namesOpt] at hn
      rw [eq_of_shape_names a b hs hn]
theorem eq_of_shape_namesList :
    ∀ a b : List Node,
      Node.shapeList a = Node.shapeList b → Node.namesList a = Node.namesList b → a = b
  | [], [], _, _ => rfl
  | [], _ :: _, hs, _ => by simp [Node.shapeList] at hs
  | _ :: _, [], hs, _ => by simp [Node.shapeList] at hs
  | x :: a, y :: b, hs, hn => by
      simp only [Node.shapeList, List.cons.injEq] at hs
      simp only [Node.namesList] at hn
      have hl : (Node.names x).length = (Node.names y).length := by
        rw [← length_names_shape x, ← length_names_shape y, hs.1]
      obtain ⟨h1, h2⟩ := List.append_inj hn hl
      rw [eq_of_shape_names x y hs.1 h1, eq_of_shape_namesList a b hs.2 h2]
end

theorem file_eq_of_shape_names (f g : File) (hs : f.shape = g.shape) (hn : f.names = g.names) :
    f = g := by
  cases f with
  | mk fn1 n1 d1 =>
  cases g with
  | mk fn2 n2 d2 =>
  simp only [File.shape, File.mk.injEq, Ident.mk.injEq] at hs
  simp only [File.names, List.cons.injEq] at hn
  have hd := eq_of_shape_namesList d1 d2 hs.2.2 hn.2
  cases n1
  cases n2
  simp_all

/-! ## Pass B: lemmas -/

theorem nameWalker_Visit_name (mp : Bindings) (n : Ident) :
    (nameWalker.Visit mp n).name = renamed mp n.name := by
  unfold nameWalker.Visit renamed
  cases h : mp n.name <;> simp

theorem nameWalker_Visit_pos (mp : Bindings) (n : Ident) :
    (nameWalker.Visit mp n).namePos = n.namePos := by
  unfold nameWalker.Visit
  cases h : mp n.name <;> simp

theorem nameWalker_Visit_blank (mp : Bindings) (n : Ident) :
    ({ nameWalker.Visit mp n with name := "" } : Ident) = { n with name := "" } := by
  simp [nameWalker_Visit_pos]

mutual
theorem names_nameWalk (mp : Bindings) :
    ∀ t : Node, Node.names (nameWalker.Walk mp t) = (Node.names t).map (renamed mp)
  | .ident id => by simp [nameWalker.Walk, Node.names, nameWalker_Visit_name]
  | .typeSpec name ty => by
      simp [nameWalker.Walk, Node.names, nameWalker_Visit_name, names_nameWalk mp ty]
  | .valueSpec ns ty values => by
      simp [nameWalker.Walk, Node.names, names_nameWalkOpt mp ty, names_nameWalkList mp values,
        Function.comp_def, nameWalker_Visit_name]
  | .genDecl _ specs => by simp [nameWalker.Walk, Node.names, names_nameWalkList mp specs]
  | .other _ cs => by simp [nameWalker.Walk, Node.names, names_nameWalkList mp cs]
theorem names_nameWalkOpt (mp : Bindings) :
    ∀ t : Option Node,
      Node.namesOpt (nameWalker.WalkOpt mp t) = (Node.namesOpt t).map (renamed mp)
  | none => by simp [nameWalker.WalkOpt, Node.namesOpt]
  | some n => by simp [nameWalker.WalkOpt, Node.namesOpt, names_nameWalk mp n]
theorem names_nameWalkList (mp : Bindings) :
    ∀ ts : List Node,
      Node.namesList (nameWalker.WalkList mp ts) = (Node.namesList ts).map (renamed mp)
  | [] => by simp [nameWalker.WalkList, Node.namesList]
  | n :: ns => by
      simp [nameWalker.WalkList, Node.namesList, names_nameWalk mp n, names_nameWalkList mp ns]
end

mutual
theorem shape_nameWalk (mp : Bindings) :
    ∀ t : Node, Node.shape (nameWalker.Walk mp t) = Node.shape t
  | .ident id => by simp [nameWalker.Walk, Node.shape, nameWalker_Visit_pos]
  | .typeSpec name ty => by
      simp [nameWalker.Walk, Node.shape, nameWalker_Visit_pos, shape_nameWalk mp ty]
  | .valueSpec ns ty values => by
      simp [nameWalker.Walk, Node.shape, shape_nameWalkOpt mp ty, shape_nameWalkList mp values,
        Function.comp_def, nameWalker_Visit_pos]
  | .genDecl _ specs => by simp [nameWalker.Walk, Node.shape, shape_nameWalkList mp specs]
  | .other _ cs => by simp [nameWalker.Walk, Node.shape, shape_nameWalkList mp cs]
theorem shape_nameWalkOpt (mp : Bindings) :
    ∀ t : Option Node, Node.shapeOpt (nameWalker.WalkOpt mp t) = Node.shapeOpt t
  | none => by simp [nameWalker.WalkOpt, Node.shapeOpt]
  | some n => by simp [nameWalker.WalkOpt, Node.shapeOpt, shape_nameWalk mp n]
theorem shape_nameWalkList (mp : Bindings) :
    ∀ ts : List Node, Node.shapeList (nameWalker.WalkList mp ts) = Node.shapeList ts
  | [] => by simp [nameWalker.WalkList, Node.shapeList]
  | n :: ns => by
      simp [nameWalker.WalkList, Node.shapeList, shape_nameWalk mp n, shape_nameWalkList mp ns]
end

/-! ## Pass A: lemmas -/

theorem typeWalker_Visit_name (w : walker) (name : Ident) (ty : Node) :
    (typeWalker.Visit w name ty).name
      = erasedName w.mp w.genericType name.name (w.pkgInfo.TypeOf (some ty)) := by
  unfold typeWalker.Visit erasedName
  by_cases h1 : (w.mp name.name).isSome = true <;>
    by_cases h2 : w.pkgInfo.TypeOf (some ty) = w.genericType <;> simp [h1, h2]

theorem typeWalker_Visit_pos (w : walker) (name : Ident) (ty : Node) :
    (typeWalker.Visit w name ty).namePos = name.namePos := by
  unfold typeWalker.Visit
  split <;> rfl

mutual
theorem names_typeWalk (w : walker) :
    ∀ t : Node, Node.names (typeWalker.Walk w t)
      = (Node.occs w.pkgInfo t).map (erasedOcc w.mp w.genericType)
  | .ident id => by simp [typeWalker.Walk, Node.names, Node.occs, erasedOcc]
  | .typeSpec name ty => by
      simp [typeWalker.Walk, Node.names, Node.occs, erasedOcc, typeWalker_Visit_name,
        names_typeWalk w ty]
  | .valueSpec ns ty values => by
      simp [typeWalker.Walk, Node.names, Node.occs, names_typeWalkOpt w ty,
        names_typeWalkList w values, Function.comp_def, erasedOcc]
  | .genDecl _ specs => by simp [typeWalker.Walk, Node.names, Node.occs, names_typeWalkList w specs]
  | .other _ cs => by simp [typeWalker.Walk, Node.names, Node.occs, names_typeWalkList w cs]
theorem names_typeWalkOpt (w : walker) :
    ∀ t : Option Node, Node.namesOpt (typeWalker.WalkOpt w t)
      = (Node.occsOpt w.pkgInfo t).map (erasedOcc w.mp w.genericType)
  | none => by simp [typeWalker.WalkOpt, Node.namesOpt, Node.occsOpt]
  | some n => by simp [typeWalker.WalkOpt, Node.namesOpt, Node.occsOpt, names_typeWalk w n]
theorem names_typeWalkList (w : walker) :
    ∀ ts : List Node, Node.namesList (typeWalker.WalkList w ts)
      = (Node.occsList w.pkgInfo ts).map (erasedOcc w.mp w.genericType)
  | [] => by simp [typeWalker.WalkList, Node.namesList, Node.occsList]
  | n :: ns => by
      simp [typeWalker.WalkList, Node.namesList, Node.occsList, names_typeWalk w n,
        names_typeWalkList w ns]
end

mutual
theorem shape_typeWalk (w : walker) :
    ∀ t : Node, Node.shape (typeWalker.Walk w t) = Node.shape t
  | .ident id => by simp [typeWalker.Walk, Node.shape]
  | .typeSpec name ty => by
      simp [typeWalker.Walk, Node.shape, typeWalker_Visit_pos, shape_typeWalk w ty]
  | .valueSpec ns ty values => by
      simp [typeWalker.Walk, Node.shape, shape_typeWalkOpt w ty, shape_typeWalkList w values]
  | .genDecl _ specs => by simp [typeWalker.Walk, Node.shape, shape_typeWalkList w specs]
  | .other _ cs => by simp [typeWalker.Walk, Node.shape, shape_typeWalkList w cs]
theorem shape_typeWalkOpt (w : walker) :
    ∀ t : Option Node, Node.shapeOpt (typeWalker.WalkOpt w t) = Node.shapeOpt t
  | none => by simp [typeWalker.WalkOpt, Node.shapeOpt]
  | some n => by simp [typeWalker.WalkOpt, Node.shapeOpt, shape_typeWalk w n]
theorem shape_typeWalkList (w : walker) :
    ∀ ts : List Node, Node.shapeList (typeWalker.WalkList w ts) = Node.shapeList ts
  | [] => by simp [typeWalker.WalkList, Node.shapeList]
  | n :: ns => by
      simp [typeWalker.WalkList, Node.shapeList, shape_typeWalk w n, shape_typeWalkList w ns]
end

/-! ## Pass A on the top-level type declarations -/

theorem specsOfDecl_typeWalk_aux (w : walker) :
    ∀ specs : List Node,
      ((typeWalker.WalkList w specs).filterMap fun s =>
          match s with
          | .typeSpec name ty => some (name, ty)
          | _ => none).map (fun d : Ident × Node => d.1.name)
        = (specs.filterMap fun s =>
          match s with
          | .typeSpec name ty => some (name, ty)
          | _ => none).map
            (fun d : Ident × Node =>
              erasedName w.mp w.genericType d.1.name (w.pkgInfo.TypeOf (some d.2)))
  | [] => by simp [typeWalker.WalkList]
  | s :: rest => by
      have ih := specsOfDecl_typeWalk_aux w rest
      cases s <;>
        simp [typeWalker.WalkList, typeWalker.Walk, List.filterMap_cons, ih,
          typeWalker_Visit_name]

theorem specsOfDecl_typeWalk (w : walker) (d : Node) :
    (Node.specsOfDecl (typeWalker.Walk w d)).map (fun d : Ident × Node => d.1.name)
      = (Node.specsOfDecl d).map
          (fun d : Ident × Node =>
            erasedName w.mp w.genericType d.1.name (w.pkgInfo.TypeOf (some d.2))) := by
  cases d with
  | genDecl tok specs =>
      simpa [typeWalker.Walk, Node.specsOfDecl] using specsOfDecl_typeWalk_aux w specs
  | _ => simp [typeWalker.Walk, Node.specsOfDecl]

theorem topTypeDecls_typeWalkList (w : walker) :
    ∀ ds : List Node,
      ((typeWalker.WalkList w ds).flatMap Node.specsOfDecl).map (fun d : Ident × Node => d.1.name)
        = (ds.flatMap Node.specsOfDecl).map
            (fun d : Ident × Node =>
              erasedName w.mp w.genericType d.1.name (w.pkgInfo.TypeOf (some d.2)))
  | [] => by simp [typeWalker.WalkList]
  | d :: rest => by
      simp [typeWalker.WalkList, List.flatMap_cons, List.map_append, specsOfDecl_typeWalk w d,
        topTypeDecls_typeWalkList w rest]

/-! ## Type declarations through both passes -/

mutual
theorem typeDeclNames_nameWalk (mp : Bindings) :
    ∀ t : Node, Node.typeDeclNames (nameWalker.Walk mp t)
      = (Node.typeDeclNames t).map (renamed mp)
  | .ident id => by simp [nameWalker.Walk, Node.typeDeclNames]
  | .typeSpec name ty => by
      simp [nameWalker.Walk, Node.typeDeclNames, nameWalker_Visit_name,
        typeDeclNames_nameWalk mp ty]
  | .valueSpec ns ty values => by
      simp [nameWalker.Walk, Node.typeDeclNames, typeDeclNames_nameWalkOpt mp ty,
        typeDeclNames_nameWalkList mp values]
  | .genDecl _ specs => by
      simp [nameWalker.Walk, Node.typeDeclNames, typeDeclNames_nameWalkList mp specs]
  | .other _ cs => by
      simp [nameWalker.Walk, Node.typeDeclNames, typeDeclNames_nameWalkList mp cs]
theorem typeDeclNames_nameWalkOpt (mp : Bindings) :
    ∀ t : Option Node, Node.typeDeclNamesOpt (nameWalker.WalkOpt mp t)
      = (Node.typeDeclNamesOpt t).map (renamed mp)
  | none => by simp [nameWalker.WalkOpt, Node.typeDeclNamesOpt]
  | some n => by
      simp [nameWalker.WalkOpt, Node.typeDeclNamesOpt, typeDeclNames_nameWalk mp n]
theorem typeDeclNames_nameWalkList (mp : Bindings) :
    ∀ ts : List Node, Node.typeDeclNamesList (nameWalker.WalkList mp ts)
      = (Node.typeDeclNamesList ts).map (renamed mp)
  | [] => by simp [nameWalker.WalkList, Node.typeDeclNamesList]
  | n :: ns => by
      simp [nameWalker.WalkList, Node.typeDeclNamesList, typeDeclNames_nameWalk mp n,
        typeDeclNames_nameWalkList mp ns]
end

mutual
theorem typeDeclNames_typeWalk (w : walker) :
    ∀ t : Node, Node.typeDeclNames (typeWalker.Walk w t)
      = (Node.typeDecls w.pkgInfo t).map
          (fun d : String × Option Ty => erasedName w.mp w.genericType d.1 d.2)
  | .ident id => by simp [typeWalker.Walk, Node.typeDeclNames, Node.typeDecls]
  | .typeSpec name ty => by
      simp [typeWalker.Walk, Node.typeDeclNames, Node.typeDecls, typeWalker_Visit_name,
        typeDeclNames_typeWalk w ty]
  | .valueSpec ns ty values => by
      simp [typeWalker.Walk, Node.typeDeclNames, Node.typeDecls,
        typeDeclNames_typeWalkOpt w ty, typeDeclNames_typeWalkList w values]
  | .genDecl _ specs => by
      simp [typeWalker.Walk, Node.typeDeclNames, Node.typeDecls,
        typeDeclNames_typeWalkList w specs]
  | .other _ cs => by
      simp [typeWalker.Walk, Node.typeDeclNames, Node.typeDecls,
        typeDeclNames_typeWalkList w cs]
theorem typeDeclNames_typeWalkOpt (w : walker) :
    ∀ t : Option Node, Node.typeDeclNamesOpt (typeWalker.WalkOpt w t)
      = (Node.typeDeclsOpt w.pkgInfo t).map
          (fun d : String × Option Ty => erasedName w.mp w.genericType d.1 d.2)
  | none => by simp [typeWalker.WalkOpt, Node.typeDeclNamesOpt, Node.typeDeclsOpt]
  | some n => by
      simp [typeWalker.WalkOpt, Node.typeDeclNamesOpt, Node.typeDeclsOpt,
        typeDeclNames_typeWalk w n]
theorem typeDeclNames_typeWalkList (w : walker) :
    ∀ ts : List Node, Node.typeDeclNamesList (typeWalker.WalkList w ts)
      = (Node.typeDeclsList w.pkgInfo ts).map
          (fun d : String × Option Ty => erasedName w.mp w.genericType d.1 d.2)
  | [] => by simp [typeWalker.WalkList, Node.typeDeclNamesList, Node.typeDeclsList]
  | n :: ns => by
      simp [typeWalker.WalkList, Node.typeDeclNamesList, Node.typeDeclsList,
        typeDeclNames_typeWalk w n, typeDeclNames_typeWalkList w ns]
end

theorem renamed_erasedName (mp : Bindings) (P : Option Ty) (h : mp "_" = none)
    (d : String × Option Ty) :
    renamed mp (erasedName mp P d.1 d.2)
      = if (mp d.1).isSome ∧ d.2 = P then "_" else renamed mp d.1 := by
  unfold erasedName
  split
  · simp [renamed, h]
  · rfl

theorem renamed_self (mp : Bindings) (h : ∀ k v, mp k = some v → v = k) (k : String) :
    renamed mp k = k := by
  unfold renamed
  cases hk : mp k with
  | none => rfl
  | some v => simpa using h k v hk

mutual
theorem occs_names (p : PackageInfo) :
    ∀ t : Node, (Node.occs p t).map Prod.snd = Node.names t
  | .ident _ => by simp [Node.occs, Node.names]
  | .typeSpec _ ty => by simp [Node.occs, Node.names, occs_names p ty]
  | .valueSpec ns ty values => by
      simp [Node.occs, Node.names, occs_namesOpt p ty, occs_namesList p values,
        Function.comp_def]
  | .genDecl _ specs => by simp [Node.occs, Node.names, occs_namesList p specs]
  | .other _ cs => by simp [Node.occs, Node.names, occs_namesList p cs]
theorem occs_namesOpt (p : PackageInfo) :
    ∀ t : Option Node, (Node.occsOpt p t).map Prod.snd = Node.namesOpt t
  | none => by simp [Node.occsOpt, Node.namesOpt]
  | some n => by simp [Node.occsOpt, Node.namesOpt, occs_names p n]
theorem occs_namesList (p : PackageInfo) :
    ∀ ts : List Node, (Node.occsList p ts).map Prod.snd = Node.namesList ts
  | [] => by simp [Node.occsList, Node.namesList]
  | n :: ns => by simp [Node.occsList, Node.namesList, occs_names p n, occs_namesList p ns]
end

theorem erasedOcc_of_no_key (mp : Bindings) (P : Option Ty) (h : ∀ k, mp k = none)
    (o : Role × String) : erasedOcc mp P o = o.2 := by
  obtain ⟨r, n⟩ := o
  cases r <;> simp [erasedOcc, erasedName, h]

/-! ## Properties of the two passes -/

/-- C1: Pass B is a complete, exact renaming.  After the walk of a tree (or of a file) with
`nameWalker`, the names of the identifier nodes, in source order, are the names before the
walk with each key of the binding map replaced, once, by its value and each other name kept;
and the tree with the names blanked is the one before the walk. -/
theorem nameWalker_complete_exact (mp : Bindings) :
    (∀ t : Node, Node.names (nameWalker.Walk mp t) = (Node.names t).map (renamed mp)
        ∧ Node.shape (nameWalker.Walk mp t) = Node.shape t)
    ∧ (∀ f : File, (nameWalker.WalkFile mp f).names = f.names.map (renamed mp)
        ∧ (nameWalker.WalkFile mp f).shape = f.shape) := by
  refine ⟨fun t => ⟨names_nameWalk mp t, shape_nameWalk mp t⟩, fun f => ⟨?_, ?_⟩⟩
  · simp [File.names, nameWalker.WalkFile, nameWalker_Visit_name, names_nameWalkList]
  · simp [File.shape, nameWalker.WalkFile, nameWalker_Visit_pos, shape_nameWalkList]

/-- C2: Pass A erases exactly the generic anchor declarations among the top-level type
declarations.  For every walker (binding map, type table, placeholder type) and every file,
the names of the top-level type declarations after Pass A are, declaration by declaration,
the discard marker when the name was a key of the binding map and the checker's type of the
declared type is the placeholder type, and the name before the pass otherwise. -/
theorem typeWalker_erases_exactly_anchors (w : walker) (f : File) :
    (typeWalker.WalkFile w f).topTypeDecls.map (fun d => d.1.name)
      = f.topTypeDecls.map fun d =>
          if (w.mp d.1.name).isSome ∧ w.pkgInfo.TypeOf (some d.2) = w.genericType then "_"
          else d.1.name := by
  simpa [File.topTypeDecls, typeWalker.WalkFile, erasedName] using
    topTypeDecls_typeWalkList w f.decls

/-- C3, as the code has it: erasure survives renaming when the discard marker is not a key of
the binding map.  After Pass A, Pass B and the package rename, the names of the type
declarations of the file, at any depth and in source order, are the discard marker for each
declaration Pass A erased, and the renamed name for each other declaration. -/
theorem erasure_survives_renaming (w : walker) (newPkgName : String) (f : File)
    (h : w.mp "_" = none) :
    Node.typeDeclNamesList (rewriteFile w newPkgName f).decls
      = (Node.typeDeclsList w.pkgInfo f.decls).map fun d =>
          if (w.mp d.1).isSome ∧ d.2 = w.genericType then "_" else renamed w.mp d.1 := by
  simp only [rewriteFile, nameWalker.WalkFile, typeWalker.WalkFile,
    typeDeclNames_nameWalkList, typeDeclNames_typeWalkList, List.map_map]
  apply List.map_congr_left
  intro d _
  exact renamed_erasedName w.mp w.genericType h d

/-- C3, witness: on `type Box Generic; func NewBox() Box` with the binding `Box=IntBox` the
declaration is named with the discard marker and the function returns `IntBox`. -/
theorem erasure_survives_renaming_witness :
    boxWalker.mp "_" = none
    ∧ Node.typeDeclNamesList (rewriteFile boxWalker "out" boxFile).decls
        = (Node.typeDeclsList boxWalker.pkgInfo boxFile.decls).map (fun d =>
            if (boxWalker.mp d.1).isSome ∧ d.2 = boxWalker.genericType then "_"
            else renamed boxWalker.mp d.1)
    ∧ Node.typeDeclNamesList (rewriteFile boxWalker "out" boxFile).decls = ["_"]
    ∧ (rewriteFile boxWalker "out" boxFile).names = ["out", "_", "Generic", "NewBox", "IntBox"] :=
  ⟨by decide, erasure_survives_renaming boxWalker "out" boxFile (by decide), by decide,
    by decide⟩

/-- C3, counterexample: with the bindings `Box=IntBox _=Box`, Pass A erases the declaration
`type Box Generic` and Pass B then rewrites the discard marker: the declaration is in the
output under the name `Box`. -/
theorem erasure_undone_by_marker_key :
    Node.typeDeclNamesList (typeWalker.WalkFile leakWalker boxFile).decls = ["_"]
    ∧ Node.typeDeclNamesList (rewriteFile leakWalker "out" boxFile).decls = ["Box"] := by
  decide

/-- C7: the package name of the rewritten file is the output base name, whatever the binding
map, the placeholder type and the file are. -/
theorem rewriteFile_package_name (w : walker) (newPkgName : String) (f : File) :
    (rewriteFile w newPkgName f).name.name = newPkgName := rfl

/-- C8: a no-op mapping.  When the binding map maps every key to itself (an empty map does),
the names of the identifiers of the rewritten file are the output base name for the package
name and, for the rest, the names of the template with only the names of the type
declarations whose name is a key and whose type is the placeholder type set to the discard
marker; and the file with the names blanked is the template with the names blanked.  When the
map is empty, the rewritten file is the template with the package name replaced. -/
theorem noop_mapping (w : walker) (newPkgName : String) (f : File)
    (h : ∀ k v, w.mp k = some v → v = k) :
    (rewriteFile w newPkgName f).names
        = newPkgName :: (Node.occsList w.pkgInfo f.decls).map (erasedOcc w.mp w.genericType)
    ∧ (rewriteFile w newPkgName f).shape = f.shape
    ∧ ((∀ k, w.mp k = none) →
        rewriteFile w newPkgName f = { f with name := { f.name with name := newPkgName } }) := by
  have hnames : (rewriteFile w newPkgName f).names
      = newPkgName :: (Node.occsList w.pkgInfo f.decls).map (erasedOcc w.mp w.genericType) := by
    simp only [rewriteFile, File.names, nameWalker.WalkFile, typeWalker.WalkFile,
      names_nameWalkList, names_typeWalkList, List.map_map]
    congr 1
    apply List.map_congr_left
    intro o _
    exact renamed_self w.mp h _
  have hshape : (rewriteFile w newPkgName f).shape = f.shape := by
    simp [rewriteFile, File.shape, nameWalker.WalkFile, typeWalker.WalkFile,
      nameWalker_Visit_pos, shape_nameWalkList, shape_typeWalkList]
  refine ⟨hnames, hshape, fun h0 => ?_⟩
  apply file_eq_of_shape_names
  · rw [hshape]
    rfl
  · rw [hnames]
    have hmap : (Node.occsList w.pkgInfo f.decls).map (erasedOcc w.mp w.genericType)
        = (Node.occsList w.pkgInfo f.decls).map Prod.snd :=
      List.map_congr_left fun o _ => erasedOcc_of_no_key w.mp w.genericType h0 o
    rw [hmap, occs_namesList]
    rfl

/-- C8, witness: the binding `Box=Box` on `type Box Generic; func NewBox() Box`. -/
theorem noop_mapping_witness :
    (∀ k v, selfWalker.mp k = some v → v = k)
    ∧ (rewriteFile selfWalker "out" boxFile).names = ["out", "_", "Generic", "NewBox", "Box"]
    ∧ (rewriteFile selfWalker "out" boxFile).shape = boxFile.shape :=
  have h : ∀ k v, selfWalker.mp k = some v → v = k := by
    intro k v hk
    simp only [selfWalker] at hk
    split at hk
    · rename_i hb
      simp at hk
      rw [← hk, hb]
    · simp at hk
  ⟨h, (noop_mapping selfWalker "out" boxFile h).1.trans (by decide),
    (noop_mapping selfWalker "out" boxFile h).2.1⟩

/-- C10, as the code has it: Pass A changes nothing but the names of type declarations, at
any depth.  The names of the identifiers after the pass are the names before it, except that
the name of a type spec whose name is a key of the binding map and whose declared type has
the placeholder type is the discard marker; the tree with the names blanked is unchanged. -/
theorem typeWalker_frame (w : walker) :
    (∀ t : Node, Node.names (typeWalker.Walk w t)
          = (Node.occs w.pkgInfo t).map (erasedOcc w.mp w.genericType)
        ∧ Node.shape (typeWalker.Walk w t) = Node.shape t)
    ∧ (∀ f : File, (typeWalker.WalkFile w f).names
          = (File.occs w.pkgInfo f).map (erasedOcc w.mp w.genericType)
        ∧ (typeWalker.WalkFile w f).shape = f.shape) := by
  refine ⟨fun t => ⟨names_typeWalk w t, shape_typeWalk w t⟩, fun f => ⟨?_, ?_⟩⟩
  · simp [File.names, File.occs, typeWalker.WalkFile, names_typeWalkList, erasedOcc]
  · simp [File.shape, typeWalker.WalkFile, shape_typeWalkList]

/-- C10, counterexample: in `func f() { type Box Generic }` the file has no top-level type
declaration, and Pass A with the binding `Box=IntBox` sets the name of the type declaration
in the function body to the discard marker. -/
theorem typeWalker_erases_local_declaration :
    localBoxFile.topTypeDecls.length = 0
    ∧ localBoxFile.names = ["tmpl", "f", "Box", "Generic"]
    ∧ (typeWalker.WalkFile boxWalker localBoxFile).names = ["tmpl", "f", "_", "Generic"] := by
  decide

/-! ## File system: lemmas -/

theorem under_append (d x : Path) : under d (d ++ x) = true := by
  induction d with
  | nil => simp [under]
  | cons a d ih => simp [under, ih]

theorem stat_filter_keep (P : Path × Entry → Bool) (p : Path) :
    ∀ fs : FS, (∀ e : Path × Entry, e.1 = p → P e = true) →
      FS.stat (fs.filter P) p = FS.stat fs p
  | [], _ => rfl
  | (q, e) :: rest, h => by
      have ih := stat_filter_keep P p rest h
      by_cases hq : q = p
      · subst hq
        have hP : P (q, e) = true := h (q, e) rfl
        simp [List.filter_cons, hP, FS.stat]
      · cases hP : P (q, e) <;> simp [List.filter_cons, hP, FS.stat, hq, ih]

theorem stat_filter_drop (P : Path × Entry → Bool) (p : Path) :
    ∀ fs : FS, (∀ e : Path × Entry, e.1 = p → P e = false) →
      FS.stat (fs.filter P) p = none
  | [], _ => rfl
  | (q, e) :: rest, h => by
      have ih := stat_filter_drop P p rest h
      by_cases hq : q = p
      · have hP : P (q, e) = false := h (q, e) hq
        simp [List.filter_cons, hP, ih]
      · cases hP : P (q, e) <;> simp [List.filter_cons, hP, FS.stat, hq, ih]

theorem stat_of_fresh (d p : Path) (hp : under d p = true) :
    ∀ fs : FS, (fs.all fun e => !under d e.1) = true → FS.stat fs p = none
  | [], _ => rfl
  | (q, e) :: rest, h => by
      simp only [List.all_cons, Bool.and_eq_true, Bool.not_eq_true'] at h
      have hq : q ≠ p := by
        intro hqp
        rw [hqp, hp] at h
        exact Bool.noConfusion h.1
      simp [FS.stat, hq, stat_of_fresh d p hp rest h.2]

theorem fileAt_mkdirFrom (p : Path) :
    ∀ (cs : List String) (fs : FS) (b : Path),
      FS.fileAt (FS.mkdirFrom fs b cs) p = FS.fileAt fs p
  | [], _, _ => rfl
  | c :: cs, fs, b => by
      unfold FS.mkdirFrom
      split
      · exact fileAt_mkdirFrom p cs fs (b ++ [c])
      · rfl
      · rename_i hnone
        rw [fileAt_mkdirFrom p cs _ (b ++ [c])]
        by_cases hq : b ++ [c] = p
        · subst hq
          simp [FS.fileAt, FS.stat, hnone]
        · simp [FS.fileAt, FS.stat, hq]

theorem stat_WriteFile (fs fs1 : FS) (q p : Path) (data : String)
    (h : FS.WriteFile fs q data = some fs1) (hp : q ≠ p) : FS.stat fs1 p = FS.stat fs p := by
  unfold FS.WriteFile at h
  split at h
  · exact Option.noConfusion h
  · have h1 : fs1 = (q, Entry.file data) :: fs.filter fun e => decide (e.1 ≠ q) :=
      (Option.some.inj h).symm
    rw [h1]
    simp only [FS.stat, hp, if_false]
    apply stat_filter_keep
    intro e he
    simp [he, Ne.symm hp]

theorem stat_emitFiles (env : Env) (w : walker) (newPkgName : String) (tdir p : Path)
    (hp : under tdir p = false) :
    ∀ (files : List File) (fs : FS),
      FS.stat (emitFiles env w newPkgName tdir fs files).1 p = FS.stat fs p
  | [], _ => rfl
  | f :: rest, fs => by
      simp only [emitFiles]
      cases hfmt : env.format (rewriteFile w newPkgName f) with
      | none => rfl
      | some b =>
          cases hw : FS.WriteFile fs (tdir ++ [f.filename]) b with
          | none => simp [hw]
          | some fs1 =>
              have hne : tdir ++ [f.filename] ≠ p := by
                intro hq
                rw [← hq, under_append] at hp
                exact Bool.noConfusion hp
              have ih := stat_emitFiles env w newPkgName tdir p hp rest fs1
              have hs := stat_WriteFile fs fs1 _ p b hw hne
              cases hrec : emitFiles env w newPkgName tdir fs1 rest with
              | mk fs2 r =>
                  rw [hrec] at ih
                  cases r <;> simp only [hw, hrec] <;> rw [ih, hs]

theorem emitFiles_result (env : Env) (w : walker) (newPkgName : String) (tdir : Path) :
    ∀ (files : List File) (fs : FS),
      (emitFiles env w newPkgName tdir fs files).2 = .error .format
      ∨ (emitFiles env w newPkgName tdir fs files).2 = .error .write
      ∨ (emitFiles env w newPkgName tdir fs files).2
          = .ok (files.map (rewriteFile w newPkgName))
  | [], _ => Or.inr (Or.inr rfl)
  | f :: rest, fs => by
      simp only [emitFiles]
      cases hfmt : env.format (rewriteFile w newPkgName f) with
      | none => exact Or.inl rfl
      | some b =>
          cases hw : FS.WriteFile fs (tdir ++ [f.filename]) b with
          | none => simp [hw]
          | some fs1 =>
              have ih := emitFiles_result env w newPkgName tdir rest fs1
              cases hrec : emitFiles env w newPkgName tdir fs1 rest with
              | mk fs2 r =>
                  rw [hrec] at ih
                  cases r with
                  | error e =>
                      simp only [hw, hrec]
                      simpa using ih
                  | ok gs =>
                      simp only [hw, hrec]
                      simpa using ih

theorem generateAndPublish_of_check_false (env : Env) (flags : Flags) (w : walker)
    (newPkgName : String) (absPkgPath tdir : Path) (fs : FS)
    (hcheck : env.check newPkgName (generatedFiles w newPkgName) = false) :
    (generateAndPublish env flags w newPkgName absPkgPath tdir fs).1
        = (emitFiles env w newPkgName tdir fs w.pkgInfo.files).1
    ∧ ((generateAndPublish env flags w newPkgName absPkgPath tdir fs).2 = .error .typeCheck
      ∨ (generateAndPublish env flags w newPkgName absPkgPath tdir fs).2 = .error .format
      ∨ (generateAndPublish env flags w newPkgName absPkgPath tdir fs).2 = .error .write)
    ∧ ((emitFiles env w newPkgName tdir fs w.pkgInfo.files).2
          = .ok (generatedFiles w newPkgName) →
        (generateAndPublish env flags w newPkgName absPkgPath tdir fs).2
          = .error .typeCheck) := by
  have hres := emitFiles_result env w newPkgName tdir w.pkgInfo.files fs
  unfold generateAndPublish
  cases heq : emitFiles env w newPkgName tdir fs w.pkgInfo.files with
  | mk fs1 r =>
      rw [heq] at hres
      cases r with
      | error e =>
          have he : e = .format ∨ e = .write := by simpa using hres
          dsimp only
          refine ⟨rfl, ?_, fun h => Except.noConfusion h⟩
          rcases he with h | h
          · exact Or.inr (Or.inl (by rw [h]))
          · exact Or.inr (Or.inr (by rw [h]))
      | ok gs =>
          have hgs : gs = generatedFiles w newPkgName := by
            simpa [generatedFiles] using hres
          subst hgs
          simp [hcheck]

theorem stat_cons_dir_ne_file (fs : FS) (q p : Path) (data : String)
    (h : FS.stat ((q, Entry.dir) :: fs) p = some (.file data)) :
    FS.stat fs p = some (.file data) := by
  unfold FS.stat at h
  split at h
  · exact Entry.noConfusion (Option.some.inj h)
  · exact h

theorem clearFrom_cons_dir (q : Path) :
    ∀ (cs : List String) (fs : FS) (b : Path),
      FS.clearFrom fs b cs = true → FS.clearFrom ((q, Entry.dir) :: fs) b cs = true
  | [], _, _, _ => rfl
  | c :: cs, fs, b, h => by
      simp only [FS.clearFrom, Bool.and_eq_true] at h ⊢
      refine ⟨?_, clearFrom_cons_dir q cs fs (b ++ [c]) h.2⟩
      cases hs : FS.stat ((q, Entry.dir) :: fs) (b ++ [c]) with
      | none => rfl
      | some e =>
          cases e with
          | dir => rfl
          | file data =>
              have := stat_cons_dir_ne_file fs q (b ++ [c]) data hs
              rw [this] at h
              exact h.1

theorem isDir_mkdirFrom :
    ∀ (cs : List String) (fs : FS) (b : Path),
      FS.isDir fs b = true → FS.clearFrom fs b cs = true →
        FS.isDir (FS.mkdirFrom fs b cs) (b ++ cs) = true
  | [], fs, b, hb, _ => by simpa [FS.mkdirFrom] using hb
  | c :: cs, fs, b, _, hc => by
      simp only [FS.clearFrom, Bool.and_eq_true] at hc
      have happ : b ++ c :: cs = (b ++ [c]) ++ cs := by simp
      rw [happ]
      unfold FS.mkdirFrom
      cases hs : FS.stat fs (b ++ [c]) with
      | none =>
          simp only
          apply isDir_mkdirFrom cs _ (b ++ [c])
          · simp [FS.isDir, FS.stat]
          · exact clearFrom_cons_dir _ cs fs (b ++ [c]) hc.2
      | some e =>
          cases e with
          | dir =>
              simp only
              apply isDir_mkdirFrom cs fs (b ++ [c])
              · simp [FS.isDir, hs]
              · exact hc.2
          | file data =>
              rw [hs] at hc
              exact Bool.noConfusion hc.1

theorem under_concat_self (x : String) : ∀ d : Path, under (d ++ [x]) d = false
  | [] => rfl
  | a :: d => by simp [under, under_concat_self x d]

theorem stat_mkdirFrom (p : Path) :
    ∀ (cs : List String) (fs : FS) (b : Path),
      under p (b ++ cs) = false → FS.stat (FS.mkdirFrom fs b cs) p = FS.stat fs p
  | [], _, _, _ => rfl
  | c :: cs, fs, b, h => by
      have happ : b ++ c :: cs = (b ++ [c]) ++ cs := by simp
      rw [happ] at h
      unfold FS.mkdirFrom
      split
      · exact stat_mkdirFrom p cs fs (b ++ [c]) h
      · rfl
      · rw [stat_mkdirFrom p cs _ (b ++ [c]) h]
        have hne : b ++ [c] ≠ p := by
          intro hq
          rw [← hq, under_append] at h
          exact Bool.noConfusion h
        simp [FS.stat, hne]

theorem WriteFile_in_dir (fs : FS) (tdir : Path) (name data : String)
    (hd : FS.isDir fs tdir = true) (hn : FS.stat fs (tdir ++ [name]) ≠ some .dir) :
    ∃ fs1, FS.WriteFile fs (tdir ++ [name]) data = some fs1
      ∧ FS.stat fs1 (tdir ++ [name]) = some (.file data)
      ∧ ∀ p, tdir ++ [name] ≠ p → FS.stat fs1 p = FS.stat fs p := by
  have hw : FS.WriteFile fs (tdir ++ [name]) data
      = some ((tdir ++ [name], .file data)
          :: fs.filter fun e => decide (e.1 ≠ tdir ++ [name])) := by
    unfold FS.WriteFile
    rw [if_neg]
    simp [hd, hn]
  exact ⟨_, hw, by simp [FS.stat], fun p hp => stat_WriteFile fs _ _ p data hw hp⟩

theorem emitFiles_ok (env : Env) (w : walker) (newPkgName : String) (tdir : Path) :
    ∀ (files : List File) (fs : FS),
      FS.isDir fs tdir = true → (∀ name, FS.stat fs (tdir ++ [name]) ≠ some .dir) →
      (∀ f ∈ files, (env.format (rewriteFile w newPkgName f)).isSome = true) →
        (emitFiles env w newPkgName tdir fs files).2
          = .ok (files.map (rewriteFile w newPkgName))
  | [], _, _, _, _ => rfl
  | f :: rest, fs, hd, hn, hf => by
      simp only [emitFiles]
      have hfmt := hf f (List.mem_cons_self _ _)
      cases hfo : env.format (rewriteFile w newPkgName f) with
      | none => simp [hfo] at hfmt
      | some b =>
          obtain ⟨fs1, hw, hself, hne⟩ := WriteFile_in_dir fs tdir f.filename b hd (hn _)
          have htd : tdir ++ [f.filename] ≠ tdir := by
            intro h
            have := congrArg List.length h
            simp at this
          have hd1 : FS.isDir fs1 tdir = true := by
            simpa [FS.isDir, hne tdir htd] using hd
          have hn1 : ∀ name, FS.stat fs1 (tdir ++ [name]) ≠ some .dir := by
            intro name
            by_cases hq : tdir ++ [f.filename] = tdir ++ [name]
            · rw [← hq, hself]
              exact fun h => Entry.noConfusion (Option.some.inj h)
            · rw [hne _ hq]
              exact hn name
          have ih := emitFiles_ok env w newPkgName tdir rest fs1 hd1 hn1
            (fun g hg => hf g (List.mem_cons_of_mem _ hg))
          simp only [hw]
          cases hrec : emitFiles env w newPkgName tdir fs1 rest with
          | mk fs2 r =>
              rw [hrec] at ih
              simp only at ih
              subst ih
              rfl

theorem stat_RemoveAll_under (fs : FS) (d p : Path) (hp : under d p = true) :
    FS.stat (FS.RemoveAll fs d) p = none := by
  apply stat_filter_drop
  intro e he
  simp [he, hp]

theorem stat_RemoveAll_outside (fs : FS) (d p : Path) (hp : under d p = false) :
    FS.stat (FS.RemoveAll fs d) p = FS.stat fs p := by
  apply stat_filter_keep
  intro e he
  simp [he, hp]

/-! ## The program: lemmas -/

theorem main_of_stages (env : Env) (flags : Flags) (fs : FS) (absPkgPath : Path)
    (typeNames : Bindings) (program : Program) (genericType : Option Ty)
    (hguard : ¬ (flags.help = true ∨ flags.args.length < 2))
    (habs : env.abs flags.outdir = some absPkgPath)
    (hb : buildBindings (fun _ => none) (flags.args.drop 1) = some typeNames)
    (hl : env.load (flags.args.headD "") = some program)
    (hs : scanGeneric (program.Package genericsPackageName) none
      (program.Package genericsPackageName).files = some genericType) :
    main env flags fs
      = match generateAndPublish env flags
            ⟨typeNames, program.Package (flags.args.headD ""), genericType⟩
            (base absPkgPath) absPkgPath (scratchDir env absPkgPath)
            (FS.MkdirAll fs (scratchDir env absPkgPath)) with
        | (fs2, .error e) => (.failed e, FS.RemoveAll fs2 (scratchDir env absPkgPath))
        | (fs2, .ok _) => (.done, FS.RemoveAll fs2 (scratchDir env absPkgPath)) := by
  unfold main
  rw [if_neg (by simpa using hguard), habs]
  dsimp only
  rw [hb]
  dsimp only
  rw [hl]
  dsimp only
  rw [hs]

theorem main_usage_of_guard (env : Env) (flags : Flags) (fs : FS)
    (h : flags.help = true ∨ flags.args.length < 2) : main env flags fs = (.usage, fs) := by
  unfold main
  rw [if_pos]
  simpa using h

theorem main_not_usage_of_guard (env : Env) (flags : Flags) (fs : FS)
    (h : ¬ (flags.help = true ∨ flags.args.length < 2)) :
    (main env flags fs).1 ≠ .usage ∧ (main env flags fs).1.exitCode ≠ 2 := by
  unfold main
  rw [if_neg (by simpa using h)]
  cases env.abs flags.outdir with
  | none => simp [Outcome.exitCode]
  | some absPkgPath =>
      dsimp only
      cases buildBindings (fun _ => none) (flags.args.drop 1) with
      | none => simp [Outcome.exitCode]
      | some typeNames =>
          dsimp only
          cases env.load (flags.args.headD "") with
          | none => simp [Outcome.exitCode]
          | some program =>
              dsimp only
              cases scanGeneric (program.Package genericsPackageName) none
                  (program.Package genericsPackageName).files with
              | none => simp [Outcome.exitCode]
              | some genericType =>
                  dsimp only
                  cases generateAndPublish env flags
                      ⟨typeNames, program.Package (flags.args.headD ""), genericType⟩
                      (base absPkgPath) absPkgPath (scratchDir env absPkgPath)
                      (FS.MkdirAll fs (scratchDir env absPkgPath)) with
                  | mk fs2 r => cases r <;> simp [Outcome.exitCode]

/-! ## The scan of the marker package: lemmas -/

mutual
theorem genericWalk_of_no_valueSpec (p : PackageInfo) (g : Option (Option Ty)) :
    ∀ t : Node, Node.hasValueSpec t = false → genericWalker.Walk p g t = g
  | .ident _, _ => by simp [genericWalker.Walk]
  | .typeSpec _ ty, h => by
      simp only [Node.hasValueSpec] at h
      simp [genericWalker.Walk, genericWalk_of_no_valueSpec p g ty h]
  | .valueSpec _ _ _, h => by simp [Node.hasValueSpec] at h
  | .genDecl _ specs, h => by
      simp only [Node.hasValueSpec] at h
      simp [genericWalker.Walk, genericWalkList_of_no_valueSpec p g specs h]
  | .other _ cs, h => by
      simp only [Node.hasValueSpec] at h
      simp [genericWalker.Walk, genericWalkList_of_no_valueSpec p g cs h]
theorem genericWalkList_of_no_valueSpec (p : PackageInfo) (g : Option (Option Ty)) :
    ∀ ts : List Node, Node.hasValueSpecList ts = false → genericWalker.WalkList p g ts = g
  | [], _ => by simp [genericWalker.WalkList]
  | n :: ns, h => by
      simp only [Node.hasValueSpecList, Bool.or_eq_false_iff] at h
      simp [genericWalker.WalkList, genericWalk_of_no_valueSpec p g n h.1,
        genericWalkList_of_no_valueSpec p g ns h.2]
end

theorem scanGeneric_of_no_valueSpec (p : PackageInfo) :
    ∀ files : List File, (∀ f ∈ files, Node.hasValueSpecList f.decls = false) →
      scanGeneric p none files = none
  | [], _ => rfl
  | f :: rest, h => by
      have hf := genericWalkList_of_no_valueSpec p none f.decls (h f (List.mem_cons_self _ _))
      have ih := scanGeneric_of_no_valueSpec p rest fun g hg => h g (List.mem_cons_of_mem _ hg)
      simp [scanGeneric, genericWalker.WalkFile, hf, ih]

mutual
theorem genericWalk_isSome (p : PackageInfo) :
    ∀ (t : Node) (g : Option (Option Ty)),
      Node.hasValueSpec t = true ∨ g.isSome = true → (genericWalker.Walk p g t).isSome = true
  | .ident _, g, h => by simpa [genericWalker.Walk, Node.hasValueSpec] using h
  | .typeSpec _ ty, g, h => by
      simp only [Node.hasValueSpec] at h
      simpa [genericWalker.Walk] using genericWalk_isSome p ty g h
  | .valueSpec _ _ _, _, _ => by simp [genericWalker.Walk]
  | .genDecl _ specs, g, h => by
      simp only [Node.hasValueSpec] at h
      simpa [genericWalker.Walk] using genericWalkList_isSome p specs g h
  | .other _ cs, g, h => by
      simp only [Node.hasValueSpec] at h
      simpa [genericWalker.Walk] using genericWalkList_isSome p cs g h
theorem genericWalkList_isSome (p : PackageInfo) :
    ∀ (ts : List Node) (g : Option (Option Ty)),
      Node.hasValueSpecList ts = true ∨ g.isSome = true →
        (genericWalker.WalkList p g ts).isSome = true
  | [], g, h => by simpa [genericWalker.WalkList, Node.hasValueSpecList] using h
  | n :: ns, g, h => by
      simp only [Node.hasValueSpecList, Bool.or_eq_true] at h
      simp only [genericWalker.WalkList]
      apply genericWalkList_isSome p ns
      rcases h with (h | h) | h
      · exact Or.inr (genericWalk_isSome p n g (Or.inl h))
      · exact Or.inl h
      · exact Or.inr (genericWalk_isSome p n g (Or.inr h))
end

theorem scanGeneric_first_file (p : PackageInfo) (f : File) (post : List File)
    (hf : Node.hasValueSpecList f.decls = true) :
    ∀ pre : List File, (∀ g ∈ pre, Node.hasValueSpecList g.decls = false) →
      scanGeneric p none (pre ++ f :: post) = genericWalker.WalkFile p none f
  | [], _ => by
      have h := genericWalkList_isSome p f.decls none (Or.inl hf)
      simp [scanGeneric, genericWalker.WalkFile, h]
  | g :: pre, h => by
      have hg := genericWalkList_of_no_valueSpec p none g.decls (h g (List.mem_cons_self _ _))
      have ih := scanGeneric_first_file p f post hf pre fun x hx =>
        h x (List.mem_cons_of_mem _ hx)
      simp [scanGeneric, genericWalker.WalkFile, hg, ih]

theorem main_resolution_failure (env : Env) (flags : Flags) (fs : FS) (absPkgPath : Path)
    (typeNames : Bindings) (program : Program)
    (hguard : ¬ (flags.help = true ∨ flags.args.length < 2))
    (habs : env.abs flags.outdir = some absPkgPath)
    (hb : buildBindings (fun _ => none) (flags.args.drop 1) = some typeNames)
    (hl : env.load (flags.args.headD "") = some program)
    (hno : ∀ f ∈ (program.Package genericsPackageName).files,
      Node.hasValueSpecList f.decls = false) :
    main env flags fs = (.failed .resolution, fs) := by
  unfold main
  rw [if_neg (by simpa using hguard), habs]
  dsimp only
  rw [hb]
  dsimp only
  rw [hl]
  dsimp only
  rw [scanGeneric_of_no_valueSpec _ _ hno]

/-! ## Properties of the scan of the marker package and of the program -/

/-- C4, the code at the failing input: on the marker file `var a int; var b string` the scan
records the type of `b`, the last value declaration of the file, though the first value
declaration, `var a int`, has a declared type that resolves (to the type 1). -/
theorem scanGeneric_last_in_file_wins :
    (⟨exTypes, [twoVarFile]⟩ : PackageInfo).TypeOf (some (.ident ⟨2, "int"⟩)) = some 1
    ∧ scanGeneric ⟨exTypes, [twoVarFile]⟩ none [twoVarFile] = some (some 2) := by
  decide

/-- C5, the code at the failing input: on the marker file `var x = 1` the scan records a
pointer to the nil type, the check `gWlkr.genericType == nil` does not see it, and the run
`gogen -o out tmpl Box=IntBox` goes on to generate and, when the check of the generated
module passes, to publish and to end with exit code 0; whatever that check says, the run does
not end with the resolution error. -/
theorem untyped_marker_is_accepted :
    scanGeneric ⟨exTypes, [untypedFile]⟩ none [untypedFile] = some none
    ∧ (main (exEnv untypedFile true) exFlags []).1 = .done
    ∧ (main (exEnv untypedFile true) exFlags []).1.exitCode = 0
    ∧ FS.fileAt (main (exEnv untypedFile true) exFlags []).2 ["out", "box.go"] = some "src"
    ∧ (∀ checks : Bool,
        (main (exEnv untypedFile checks) exFlags []).1 ≠ .failed .resolution) :=
  ⟨by decide, by decide, by decide, by decide, fun checks => by cases checks <;> decide⟩

/-- C6, as the code has it: publication is gated by verification when the scratch path is
fresh.  Take a run that passes the usage guard, resolves the output path, reads its bindings,
loads the template and finds a generic type, and whose scratch path has no entry at or below
it before the run.  If the check of the generated module reports an error, then the run ends
as a failure of the check (or of the formatting or of the writing of a generated file before
it), with exit code 1; the regular files of the file system after the run are those before
the run, path by path and content by content, so nothing was moved into the output directory;
and there is no entry at or below the scratch path.  When the formatter accepts every
generated file and no component of the scratch path is a regular file, the run ends as the
failure of the check. -/
theorem publication_gated (env : Env) (flags : Flags) (fs : FS) (absPkgPath : Path)
    (typeNames : Bindings) (program : Program) (genericType : Option Ty)
    (hguard : ¬ (flags.help = true ∨ flags.args.length < 2))
    (habs : env.abs flags.outdir = some absPkgPath)
    (hb : buildBindings (fun _ => none) (flags.args.drop 1) = some typeNames)
    (hl : env.load (flags.args.headD "") = some program)
    (hs : scanGeneric (program.Package genericsPackageName) none
      (program.Package genericsPackageName).files = some genericType)
    (hfresh : (fs.all fun e => !under (scratchDir env absPkgPath) e.1) = true)
    (hcheck : env.check (base absPkgPath)
      (generatedFiles ⟨typeNames, program.Package (flags.args.headD ""), genericType⟩
        (base absPkgPath)) = false) :
    ((main env flags fs).1 = .failed .typeCheck ∨ (main env flags fs).1 = .failed .format
      ∨ (main env flags fs).1 = .failed .write)
    ∧ (main env flags fs).1.exitCode = 1
    ∧ (∀ p : Path, FS.fileAt (main env flags fs).2 p = FS.fileAt fs p)
    ∧ (∀ p : Path, under (scratchDir env absPkgPath) p = true →
        FS.stat (main env flags fs).2 p = none)
    ∧ ((∀ f ∈ (program.Package (flags.args.headD "")).files,
          (env.format (rewriteFile
            ⟨typeNames, program.Package (flags.args.headD ""), genericType⟩
            (base absPkgPath) f)).isSome = true) →
        FS.clearFrom fs [] (scratchDir env absPkgPath) = true →
        (main env flags fs).1 = .failed .typeCheck) := by
  have hm := main_of_stages env flags fs absPkgPath typeNames program genericType hguard habs
    hb hl hs
  have hg := generateAndPublish_of_check_false env flags
    ⟨typeNames, program.Package (flags.args.headD ""), genericType⟩ (base absPkgPath)
    absPkgPath (scratchDir env absPkgPath) (FS.MkdirAll fs (scratchDir env absPkgPath)) hcheck
  cases hgp : generateAndPublish env flags
      ⟨typeNames, program.Package (flags.args.headD ""), genericType⟩ (base absPkgPath)
      absPkgPath (scratchDir env absPkgPath) (FS.MkdirAll fs (scratchDir env absPkgPath)) with
  | mk fs2 r =>
      rw [hgp] at hg hm
      obtain ⟨hfs2, hkind, hreach⟩ := hg
      simp only at hfs2 hkind hreach
      cases r with
      | ok u =>
          rcases hkind with h | h | h <;> exact Except.noConfusion h
      | error e =>
          have hm1 : (main env flags fs).1 = .failed e := by rw [hm]
          have hm2 : (main env flags fs).2 = FS.RemoveAll fs2 (scratchDir env absPkgPath) := by
            rw [hm]
          have he : e = .typeCheck ∨ e = .format ∨ e = .write := by
            rcases hkind with h | h | h
            · exact Or.inl (Except.error.inj h)
            · exact Or.inr (Or.inl (Except.error.inj h))
            · exact Or.inr (Or.inr (Except.error.inj h))
          rw [hm1, hm2, hfs2]
          refine ⟨?_, rfl, fun p => ?_, fun p hp => stat_RemoveAll_under _ _ p hp,
            fun hfmt hclear => ?_⟩
          · rcases he with h | h | h <;> simp [h]
          · cases hu : under (scratchDir env absPkgPath) p with
            | true =>
                simp only [FS.fileAt, stat_RemoveAll_under _ _ p hu,
                  stat_of_fresh _ p hu fs hfresh]
            | false =>
                have h1 := fileAt_mkdirFrom p (scratchDir env absPkgPath) fs []
                simp only [FS.fileAt] at h1 ⊢
                rw [stat_RemoveAll_outside _ _ p hu, stat_emitFiles env _ _ _ p hu]
                exact h1
          · have hok := emitFiles_ok env
              ⟨typeNames, program.Package (flags.args.headD ""), genericType⟩ (base absPkgPath)
              (scratchDir env absPkgPath) (program.Package (flags.args.headD "")).files
              (FS.MkdirAll fs (scratchDir env absPkgPath))
              (by
                simpa [FS.MkdirAll] using
                  isDir_mkdirFrom (scratchDir env absPkgPath) fs [] (by simp [FS.isDir]) hclear)
              (by
                intro name
                have hnot : under (scratchDir env absPkgPath ++ [name])
                    ([] ++ scratchDir env absPkgPath) = false := by
                  simpa using under_concat_self name (scratchDir env absPkgPath)
                rw [FS.MkdirAll, stat_mkdirFrom _ _ fs [] hnot,
                  stat_of_fresh _ _ (under_append _ _) fs hfresh]
                exact fun h => Option.noConfusion h)
              hfmt
            have := hreach hok
            rw [Except.error.inj this]

/-- C6, witness: the run `gogen -o out tmpl Box=IntBox` on a file system with `/out/old.go`,
with a check of the generated files that fails: the run ends as the failure of the check,
`/out/old.go` is as before and `/out/box.go` is not there. -/
theorem publication_gated_witness :
    (exEnv markerFile false).check (base ["out"])
        (generatedFiles ⟨boxWalker.mp, (exProgram markerFile).Package "tmpl", some 7⟩
          (base ["out"])) = false
    ∧ (plainFS.all fun e => !under (scratchDir (exEnv markerFile false) ["out"]) e.1) = true
    ∧ (main (exEnv markerFile false) exFlags plainFS).1 = .failed .typeCheck
    ∧ (∀ p : Path, FS.fileAt (main (exEnv markerFile false) exFlags plainFS).2 p
        = FS.fileAt plainFS p)
    ∧ FS.fileAt (main (exEnv markerFile false) exFlags plainFS).2 ["out", "old.go"]
        = some "old"
    ∧ FS.stat (main (exEnv markerFile false) exFlags plainFS).2 ["out", "box.go"] = none
    ∧ (∀ p : Path, under (scratchDir (exEnv markerFile false) ["out"]) p = true →
        FS.stat (main (exEnv markerFile false) exFlags plainFS).2 p = none) :=
  have h := publication_gated (exEnv markerFile false) exFlags plainFS ["out"] boxWalker.mp
    (exProgram markerFile) (some 7) (by decide) rfl rfl rfl (by decide) (by decide) rfl
  ⟨rfl, by decide, h.2.2.2.2 (fun _ _ => rfl) (by decide), h.2.2.1, by decide, by decide,
    h.2.2.2.1⟩

/-- C6, counterexample: the check of the generated module reports an error, and the scratch
path `/out/gogen-5` is already a directory of the output directory, holding the file `keep`:
the run removes that file with the scratch directory. -/
theorem publication_removes_colliding_directory :
    (∀ (newPkgName : String) (gs : List File),
      (exEnv markerFile false).check newPkgName gs = false)
    ∧ (main (exEnv markerFile false) exFlags collisionFS).1 = .failed .typeCheck
    ∧ under ["out"] ["out", "gogen-5", "keep"] = true
    ∧ FS.fileAt collisionFS ["out", "gogen-5", "keep"] = some "data"
    ∧ FS.fileAt (main (exEnv markerFile false) exFlags collisionFS).2 ["out", "gogen-5", "keep"]
        = none :=
  ⟨fun _ _ => rfl, by decide, by decide, by decide, by decide⟩

theorem main_usage_iff_guard (env : Env) (flags : Flags) (fs : FS) :
    ((main env flags fs).1 = .usage ↔ (flags.help = true ∨ flags.args.length < 2))
    ∧ ((main env flags fs).1.exitCode = 2 ↔ (flags.help = true ∨ flags.args.length < 2)) := by
  by_cases h : flags.help = true ∨ flags.args.length < 2
  · have hm := main_usage_of_guard env flags fs h
    simp [hm, h, Outcome.exitCode]
  · have hm := main_not_usage_of_guard env flags fs h
    simp [hm.1, hm.2, h]

/-- C9, the code at the failing inputs: the invocation `gogen -o out tmpl`, with `-o`, the
template and no binding, prints the usage and exits with code 2 and leaves the file system as
it was; and the invocation `gogen tmpl Box=IntBox`, without `-o`, is not a usage error,
whatever the check of the generated module says: when that check passes, it generates into
the working directory and exits with code 0. -/
theorem usage_on_no_binding :
    (main (exEnv markerFile true) noBindingFlags plainFS).1 = .usage
    ∧ (main (exEnv markerFile true) noBindingFlags plainFS).1.exitCode = 2
    ∧ (main (exEnv markerFile true) noBindingFlags plainFS).2 = plainFS
    ∧ (main (exEnv markerFile true) noOutdirFlags plainFS).1 = .done
    ∧ (main (exEnv markerFile true) noOutdirFlags plainFS).1.exitCode = 0
    ∧ (∀ checks : Bool, (main (exEnv markerFile checks) noOutdirFlags plainFS).1 ≠ .usage) :=
  ⟨by decide, by decide, by decide, by decide, by decide,
    fun checks => by cases checks <;> decide⟩

end Gogen
